import Mathlib

/-!
# Verification of the Gmail message normalizer

Shallow embedding of the message-normalization logic of the
`ospsd-team4-fall2025` repository (packages `email_api` and `gmail_impl`):
header extraction, address-list parsing, RFC 2822 date parsing, the MIME
body-tree walker, the base64url body decoder and the HTML-to-text
converter, together with the data model (`EmailAddress`, `Email`).

Python strings are modelled as Lean `String`s (lists of unicode scalar
values); Python byte strings as `List Nat` with every element `< 256`.
Python functions that may raise and are wrapped in `try/except` in the
source are modelled as `Option`-valued functions.
-/

namespace GmailSpec

/-! ## Python string primitives

Models of the CPython `str` operations used by the source, restricted to
the ASCII whitespace set (`\t`, `\n`, `\v`, `\f`, `\r`, space) — the only
whitespace occurring in the payloads this development quantifies over.
-/

/-- Model of Python `str.isspace` membership for the ASCII whitespace
characters recognised by `str.strip()` and the regex class `\s`. -/
def pyIsSpace (c : Char) : Bool :=
  c = ' ' || c = '\t' || c = '\n' || c = '\r' || c = Char.ofNat 11 || c = Char.ofNat 12

/-- Strip characters satisfying `p` from both ends of a character list
(model of Python `str.strip` family: every matching leading and trailing
character is removed, each side independently). -/
def stripEnds (p : Char → Bool) (l : List Char) : List Char :=
  ((l.dropWhile p).reverse.dropWhile p).reverse

/-- Model of Python `str.strip()` (no argument: whitespace). -/
def pyStrip (s : String) : String :=
  ⟨stripEnds pyIsSpace s.data⟩

/-- Model of Python `str.strip(q)` for a single-character argument `q`:
all leading and all trailing occurrences of `q` are removed. -/
def pyStripChar (q : Char) (s : String) : String :=
  ⟨stripEnds (· = q) s.data⟩

/-- Model of Python `str.rstrip(q)` for a single-character argument. -/
def pyRStripChar (q : Char) (s : String) : String :=
  ⟨(s.data.reverse.dropWhile (· = q)).reverse⟩

/-- Model of Python `str.split(sep)` for a one-character separator:
splits at every occurrence, keeping empty segments. -/
def splitCharGo (sep : Char) : List Char → List Char → List (List Char)
  | [], cur => [cur.reverse]
  | c :: rest, cur =>
    if c = sep then cur.reverse :: splitCharGo sep rest []
    else splitCharGo sep rest (c :: cur)

/-- Python `s.split(sep)` (one-character separator) on strings. -/
def pySplit (s : String) (sep : Char) : List String :=
  (splitCharGo sep s.data []).map String.mk

/-- Model of Python `str.lower()` for ASCII letters. -/
def pyLower (s : String) : String :=
  ⟨s.data.map Char.toLower⟩

/-- Test whether `pre` is an initial segment of `l` (model of Python
`str.startswith`). -/
def listBegins : List Char → List Char → Bool
  | [], _ => true
  | _ :: _, [] => false
  | p :: ps, c :: cs => p = c && listBegins ps cs

/-- Model of Python `str.startswith(pre)`. -/
def pyStarts (s pre : String) : Bool :=
  listBegins pre.data s.data

/-- Model of `x or d` on Python strings (`d` when `x` is empty). -/
def pyOrStr (x d : String) : String :=
  if x = "" then d else x

/-- Model of `x or d` for Python `str | None` values: `d` when `x` is
`None` or the empty string. -/
def pyOrOpt (x : Option String) (d : Option String) : Option String :=
  match x with
  | none => d
  | some s => if s = "" then d else some s

/-- Python truthiness of a `str | None` value: `True` exactly for a
non-`None`, non-empty string. -/
def pyTruthy : Option String → Bool
  | none => false
  | some s => s ≠ ""

/-! ## base64url

Model of `base64.urlsafe_b64decode` as used by `_decode_body`
(`gmail_client.py`): the translation `-`→`+`, `_`→`/` followed by
CPython `binascii.a2b_base64` in its default non-strict mode, which
discards characters outside the alphabet, ignores a `=` seen before two
sextets of the current group have been read, stops at a complete padding
group ignoring the rest of the input, and fails when the data ends with
a single leftover sextet or with an unfinished two-sextet group.
-/

/-- Sextet value of a character under the urlsafe translation followed by
the standard base64 alphabet (`+`/`-` ↦ 62, `/`/`_` ↦ 63). -/
def b64Val (c : Char) : Option Nat :=
  if 'A' ≤ c ∧ c ≤ 'Z' then some (c.toNat - 65)
  else if 'a' ≤ c ∧ c ≤ 'z' then some (c.toNat - 97 + 26)
  else if '0' ≤ c ∧ c ≤ '9' then some (c.toNat - 48 + 52)
  else if c = '+' ∨ c = '-' then some 62
  else if c = '/' ∨ c = '_' then some 63
  else none

/-- The urlsafe base64 alphabet character for a sextet value. -/
def b64EncChar (v : Nat) : Char :=
  if v < 26 then Char.ofNat (65 + v)
  else if v < 52 then Char.ofNat (97 + v - 26)
  else if v < 62 then Char.ofNat (48 + v - 52)
  else if v = 62 then '-'
  else '_'

/-- The data characters (no padding) of the base64url encoding of a byte
list, as produced by `base64.urlsafe_b64encode`. -/
def b64DataChars : List Nat → List Char
  | [] => []
  | [b1] => [b64EncChar (b1 / 4), b64EncChar (b1 % 4 * 16)]
  | [b1, b2] =>
    [b64EncChar (b1 / 4), b64EncChar (b1 % 4 * 16 + b2 / 16), b64EncChar (b2 % 16 * 4)]
  | b1 :: b2 :: b3 :: rest =>
    b64EncChar (b1 / 4) :: b64EncChar (b1 % 4 * 16 + b2 / 16) ::
      b64EncChar (b2 % 16 * 4 + b3 / 64) :: b64EncChar (b3 % 64) :: b64DataChars rest

/-- Padding characters of the standard base64 encoding of a byte list. -/
def b64PadChars (bs : List Nat) : List Char :=
  match bs.length % 3 with
  | 1 => ['=', '=']
  | 2 => ['=']
  | _ => []

/-- Model of `base64.urlsafe_b64encode` (padded form), as text. -/
def b64urlEncode (bs : List Nat) : String :=
  ⟨b64DataChars bs ++ b64PadChars bs⟩

/-- base64url encoding with the padding omitted, the form the Gmail API
delivers body data in. -/
def b64urlEncodeBare (bs : List Nat) : String :=
  ⟨b64DataChars bs⟩

/-- The three bytes encoded by a complete group of four sextets. -/
def b64QuadBytes (s1 s2 s3 s4 : Nat) : List Nat :=
  [s1 * 4 + s2 / 16, s2 % 16 * 16 + s3 / 4, s3 % 4 * 64 + s4]

/-- After a first `=` closing a two-sextet group, `a2b_base64` scans for
the second `=`, discarding non-alphabet characters; a further data
character or the end of input is an error. -/
def b64SecondPad : List Char → Option Unit
  | [] => none
  | c :: rest =>
    if c = '=' then some ()
    else if (b64Val c).isSome then none
    else b64SecondPad rest

/-- The `a2b_base64` scanning loop: `quad` holds the sextets of the
current (incomplete) group, `acc` the bytes decoded so far. -/
def b64Loop : List Char → List Nat → List Nat → Option (List Nat)
  | [], acc, quad => if quad.isEmpty then some acc else none
  | c :: rest, acc, quad =>
    match b64Val c with
    | some v =>
      match quad with
      | [s1, s2, s3] => b64Loop rest (acc ++ b64QuadBytes s1 s2 s3 v) []
      | _ => b64Loop rest acc (quad ++ [v])
    | none =>
      if c = '=' then
        match quad with
        | [] => b64Loop rest acc []
        | [_] => none
        | [s1, s2] => (b64SecondPad rest).map (fun _ => acc ++ [s1 * 4 + s2 / 16])
        | s1 :: s2 :: s3 :: _ => some (acc ++ [s1 * 4 + s2 / 16, s2 % 16 * 16 + s3 / 4])
      else b64Loop rest acc quad

/-- Model of `base64.urlsafe_b64decode` on text, yielding bytes (`none` models the
`binascii.Error`, a subclass of `ValueError`). -/
def b64decode (s : String) : Option (List Nat) :=
  b64Loop s.data [] []

theorem b64Val_encChar_all : ∀ v, v < 64 → b64Val (b64EncChar v) = some v := by
  decide

theorem b64Val_encChar {v : Nat} (h : v < 64) : b64Val (b64EncChar v) = some v :=
  b64Val_encChar_all v h

theorem b64Val_eq_pad : b64Val '=' = none := by decide

theorem b64Loop_allPad (pads : List Char) (acc : List Nat)
    (hp : ∀ c ∈ pads, c = '=') : b64Loop pads acc [] = some acc := by
  induction pads with
  | nil => simp [b64Loop]
  | cons c rest ih =>
    have hc : c = '=' := hp c (by simp)
    subst hc
    simp only [b64Loop, b64Val_eq_pad]
    exact ih (fun d hd => hp d (by simp [hd]))

theorem b64SecondPad_pad (c : Char) (rest : List Char) (hc : c = '=') :
    b64SecondPad (c :: rest) = some () := by
  subst hc
  simp [b64SecondPad]

/-- Decoding the data characters of an encoding followed by at least two
padding characters recovers the original bytes. -/
theorem b64Loop_data (bs : List Nat) (hb : ∀ b ∈ bs, b < 256)
    (pads : List Char) (hp : ∀ c ∈ pads, c = '=') (hlen : 2 ≤ pads.length) :
    ∀ acc, b64Loop (b64DataChars bs ++ pads) acc [] = some (acc ++ bs) := by
  induction bs using b64DataChars.induct with
  | case1 =>
    intro acc
    simp [b64DataChars, b64Loop_allPad pads acc hp]
  | case2 b1 =>
    intro acc
    have hb1 : b1 < 256 := hb b1 (by simp)
    obtain ⟨p1, prest, rfl⟩ : ∃ p ps, pads = p :: ps := by
      cases pads with
      | nil => simp at hlen
      | cons p ps => exact ⟨p, ps, rfl⟩
    have hp1 : p1 = '=' := hp p1 (by simp)
    subst hp1
    obtain ⟨p2, prest2, rfl⟩ : ∃ p ps, prest = p :: ps := by
      cases prest with
      | nil => simp at hlen
      | cons p ps => exact ⟨p, ps, rfl⟩
    have hp2 : p2 = '=' := hp p2 (by simp)
    subst hp2
    simp only [b64DataChars, List.cons_append, List.nil_append]
    simp only [b64Loop, b64Val_encChar (show b1 / 4 < 64 by omega),
      b64Val_encChar (show b1 % 4 * 16 < 64 by omega), b64Val_eq_pad,
      List.nil_append, List.cons_append, b64SecondPad_pad _ _ rfl, Option.map_some]
    simp only [if_true, Option.map_some, Option.some.injEq]
    simp
    omega
  | case3 b1 b2 =>
    intro acc
    have hb1 : b1 < 256 := hb b1 (by simp)
    have hb2 : b2 < 256 := hb b2 (by simp)
    obtain ⟨p1, prest, rfl⟩ : ∃ p ps, pads = p :: ps := by
      cases pads with
      | nil => simp at hlen
      | cons p ps => exact ⟨p, ps, rfl⟩
    have hp1 : p1 = '=' := hp p1 (by simp)
    subst hp1
    simp only [b64DataChars, List.cons_append, List.nil_append]
    simp only [b64Loop, b64Val_encChar (show b1 / 4 < 64 by omega),
      b64Val_encChar (show b1 % 4 * 16 + b2 / 16 < 64 by omega),
      b64Val_encChar (show b2 % 16 * 4 < 64 by omega), b64Val_eq_pad,
      List.nil_append, List.cons_append]
    simp only [if_true, Option.some.injEq]
    simp
    omega
  | case4 b1 b2 b3 rest ih =>
    intro acc
    have hb1 : b1 < 256 := hb b1 (by simp)
    have hb2 : b2 < 256 := hb b2 (by simp)
    have hb3 : b3 < 256 := hb b3 (by simp)
    have hrest : ∀ b ∈ rest, b < 256 := fun b hbin => hb b (by simp [hbin])
    simp only [b64DataChars, List.cons_append]
    simp only [b64Loop, b64Val_encChar (show b1 / 4 < 64 by omega),
      b64Val_encChar (show b1 % 4 * 16 + b2 / 16 < 64 by omega),
      b64Val_encChar (show b2 % 16 * 4 + b3 / 64 < 64 by omega),
      b64Val_encChar (show b3 % 64 < 64 by omega),
      List.nil_append, List.cons_append]
    have hq : b64QuadBytes (b1 / 4) (b1 % 4 * 16 + b2 / 16) (b2 % 16 * 4 + b3 / 64) (b3 % 64)
        = [b1, b2, b3] := by
      simp only [b64QuadBytes, List.cons.injEq, and_true]
      omega
    rw [hq]
    rw [ih hrest (acc ++ [b1, b2, b3])]
    simp

/-! ## UTF-8

Model of Python `str.encode("utf-8")` and `bytes.decode("utf-8")`.  The
decoder is a streaming validator in the style of the Unicode standard:
`pend` holds the code-point bits read so far, `need` the number of
continuation bytes still expected, and `[lo, hi]` the admissible range
of the next byte — initialised per lead byte so that overlong encodings
and surrogate code points are rejected exactly as CPython rejects them.
Failure models `UnicodeDecodeError`, a subclass of `ValueError`. -/

/-- UTF-8 bytes of one unicode scalar value. -/
def utf8EncodeChar (c : Char) : List Nat :=
  if c.toNat < 128 then [c.toNat]
  else if c.toNat < 2048 then [192 + c.toNat / 64, 128 + c.toNat % 64]
  else if c.toNat < 65536 then
    [224 + c.toNat / 4096, 128 + c.toNat / 64 % 64, 128 + c.toNat % 64]
  else
    [240 + c.toNat / 262144, 128 + c.toNat / 4096 % 64, 128 + c.toNat / 64 % 64,
      128 + c.toNat % 64]

/-- UTF-8 bytes of a character list (Python `str.encode("utf-8")`). -/
def utf8EncodeList : List Char → List Nat
  | [] => []
  | c :: cs => utf8EncodeChar c ++ utf8EncodeList cs

/-- UTF-8 bytes of a string. -/
def utf8Encode (s : String) : List Nat :=
  utf8EncodeList s.data

/-- One-pass UTF-8 decoding loop (see the section comment). -/
def utf8Run : List Nat → List Char → Nat → Nat → Nat → Nat → Option (List Char)
  | [], acc, _, need, _, _ => if need = 0 then some acc else none
  | b :: rest, acc, pend, need, lo, hi =>
    if need = 0 then
      if b < 128 then utf8Run rest (acc ++ [Char.ofNat b]) 0 0 0 0
      else if b < 194 then none
      else if b < 224 then utf8Run rest acc (b - 192) 1 128 191
      else if b = 224 then utf8Run rest acc 0 2 160 191
      else if b = 237 then utf8Run rest acc 13 2 128 159
      else if b < 240 then utf8Run rest acc (b - 224) 2 128 191
      else if b = 240 then utf8Run rest acc 0 3 144 191
      else if b = 244 then utf8Run rest acc 4 3 128 143
      else if b < 245 then utf8Run rest acc (b - 240) 3 128 191
      else none
    else
      if lo ≤ b ∧ b ≤ hi then
        if need = 1 then utf8Run rest (acc ++ [Char.ofNat (pend * 64 + (b - 128))]) 0 0 0 0
        else utf8Run rest acc (pend * 64 + (b - 128)) (need - 1) 128 191
      else none

/-- Validating UTF-8 decoder (Python `bytes.decode("utf-8")`). -/
def utf8Decode (bs : List Nat) : Option (List Char) :=
  utf8Run bs [] 0 0 0 0

/-- Decode UTF-8 bytes to text. -/
def utf8DecodeStr (bs : List Nat) : Option String :=
  (utf8Decode bs).map String.mk

theorem utf8EncodeChar_lt (c : Char) : ∀ b ∈ utf8EncodeChar c, b < 256 := by
  have hv : c.toNat < 55296 ∨ (57343 < c.toNat ∧ c.toNat < 1114112) := c.valid
  intro b hb
  by_cases h1 : c.toNat < 128
  · simp [utf8EncodeChar, h1] at hb
    omega
  · by_cases h2 : c.toNat < 2048
    · simp [utf8EncodeChar, h1, h2] at hb
      omega
    · by_cases h3 : c.toNat < 65536
      · simp [utf8EncodeChar, h1, h2, h3] at hb
        omega
      · simp [utf8EncodeChar, h1, h2, h3] at hb
        omega

theorem utf8EncodeList_lt (l : List Char) : ∀ b ∈ utf8EncodeList l, b < 256 := by
  induction l with
  | nil => simp [utf8EncodeList]
  | cons c cs ih =>
    intro b hb
    simp only [utf8EncodeList, List.mem_append] at hb
    rcases hb with hb | hb
    · exact utf8EncodeChar_lt c b hb
    · exact ih b hb

/-- One-step unfolding of the decoding loop on a cons cell. -/
theorem utf8Run_cons (b : Nat) (rest : List Nat) (acc : List Char)
    (pend need lo hi : Nat) :
    utf8Run (b :: rest) acc pend need lo hi =
      (if need = 0 then
        if b < 128 then utf8Run rest (acc ++ [Char.ofNat b]) 0 0 0 0
        else if b < 194 then none
        else if b < 224 then utf8Run rest acc (b - 192) 1 128 191
        else if b = 224 then utf8Run rest acc 0 2 160 191
        else if b = 237 then utf8Run rest acc 13 2 128 159
        else if b < 240 then utf8Run rest acc (b - 224) 2 128 191
        else if b = 240 then utf8Run rest acc 0 3 144 191
        else if b = 244 then utf8Run rest acc 4 3 128 143
        else if b < 245 then utf8Run rest acc (b - 240) 3 128 191
        else none
      else
        if lo ≤ b ∧ b ≤ hi then
          if need = 1 then utf8Run rest (acc ++ [Char.ofNat (pend * 64 + (b - 128))]) 0 0 0 0
          else utf8Run rest acc (pend * 64 + (b - 128)) (need - 1) 128 191
        else none) := rfl

/-- Step lemma: an ASCII byte emits its character. -/
theorem utf8Run_lead1 {b : Nat} (h : b < 128) (rest : List Nat) (acc : List Char) :
    utf8Run (b :: rest) acc 0 0 0 0 = utf8Run rest (acc ++ [Char.ofNat b]) 0 0 0 0 := by
  rw [utf8Run_cons, if_pos rfl, if_pos h]

/-- Step lemma: a two-byte lead starts a one-continuation sequence. -/
theorem utf8Run_lead2 {b : Nat} (h1 : 194 ≤ b) (h2 : b < 224) (rest : List Nat)
    (acc : List Char) :
    utf8Run (b :: rest) acc 0 0 0 0 = utf8Run rest acc (b - 192) 1 128 191 := by
  have g1 : ¬ b < 128 := by omega
  have g2 : ¬ b < 194 := by omega
  rw [utf8Run_cons, if_pos rfl, if_neg g1, if_neg g2, if_pos h2]

/-- Step lemma: the lead byte `0xE0` (first continuation from `0xA0`). -/
theorem utf8Run_lead3a (rest : List Nat) (acc : List Char) :
    utf8Run (224 :: rest) acc 0 0 0 0 = utf8Run rest acc 0 2 160 191 := by
  have g1 : ¬ (224 : Nat) < 128 := by decide
  have g2 : ¬ (224 : Nat) < 194 := by decide
  have g3 : ¬ (224 : Nat) < 224 := by decide
  rw [utf8Run_cons, if_pos rfl, if_neg g1, if_neg g2, if_neg g3, if_pos rfl]

/-- Step lemma: the lead byte `0xED` (first continuation below `0xA0`). -/
theorem utf8Run_lead3b (rest : List Nat) (acc : List Char) :
    utf8Run (237 :: rest) acc 0 0 0 0 = utf8Run rest acc 13 2 128 159 := by
  have g1 : ¬ (237 : Nat) < 128 := by decide
  have g2 : ¬ (237 : Nat) < 194 := by decide
  have g3 : ¬ (237 : Nat) < 224 := by decide
  have g4 : ¬ (237 : Nat) = 224 := by decide
  rw [utf8Run_cons, if_pos rfl, if_neg g1, if_neg g2, if_neg g3, if_neg g4, if_pos rfl]

/-- Step lemma: a generic three-byte lead. -/
theorem utf8Run_lead3 {b : Nat} (h1 : 224 ≤ b) (h2 : b < 240) (h3 : ¬ b = 224)
    (h4 : ¬ b = 237) (rest : List Nat) (acc : List Char) :
    utf8Run (b :: rest) acc 0 0 0 0 = utf8Run rest acc (b - 224) 2 128 191 := by
  have g1 : ¬ b < 128 := by omega
  have g2 : ¬ b < 194 := by omega
  have g3 : ¬ b < 224 := by omega
  rw [utf8Run_cons, if_pos rfl, if_neg g1, if_neg g2, if_neg g3, if_neg h3, if_neg h4,
    if_pos h2]

/-- Step lemma: the lead byte `0xF0` (first continuation from `0x90`). -/
theorem utf8Run_lead4a (rest : List Nat) (acc : List Char) :
    utf8Run (240 :: rest) acc 0 0 0 0 = utf8Run rest acc 0 3 144 191 := by
  have g1 : ¬ (240 : Nat) < 128 := by decide
  have g2 : ¬ (240 : Nat) < 194 := by decide
  have g3 : ¬ (240 : Nat) < 224 := by decide
  have g4 : ¬ (240 : Nat) = 224 := by decide
  have g5 : ¬ (240 : Nat) = 237 := by decide
  have g6 : ¬ (240 : Nat) < 240 := by decide
  rw [utf8Run_cons, if_pos rfl, if_neg g1, if_neg g2, if_neg g3, if_neg g4, if_neg g5,
    if_neg g6, if_pos rfl]

/-- Step lemma: the lead byte `0xF4` (first continuation below `0x90`). -/
theorem utf8Run_lead4b (rest : List Nat) (acc : List Char) :
    utf8Run (244 :: rest) acc 0 0 0 0 = utf8Run rest acc 4 3 128 143 := by
  have g1 : ¬ (244 : Nat) < 128 := by decide
  have g2 : ¬ (244 : Nat) < 194 := by decide
  have g3 : ¬ (244 : Nat) < 224 := by decide
  have g4 : ¬ (244 : Nat) = 224 := by decide
  have g5 : ¬ (244 : Nat) = 237 := by decide
  have g6 : ¬ (244 : Nat) < 240 := by decide
  have g7 : ¬ (244 : Nat) = 240 := by decide
  rw [utf8Run_cons, if_pos rfl, if_neg g1, if_neg g2, if_neg g3, if_neg g4, if_neg g5,
    if_neg g6, if_neg g7, if_pos rfl]

/-- Step lemma: a generic four-byte lead. -/
theorem utf8Run_lead4 {b : Nat} (h1 : 240 ≤ b) (h2 : b < 245) (h3 : ¬ b = 240)
    (h4 : ¬ b = 244) (rest : List Nat) (acc : List Char) :
    utf8Run (b :: rest) acc 0 0 0 0 = utf8Run rest acc (b - 240) 3 128 191 := by
  have g1 : ¬ b < 128 := by omega
  have g2 : ¬ b < 194 := by omega
  have g3 : ¬ b < 224 := by omega
  have g4 : ¬ b = 224 := by omega
  have g5 : ¬ b = 237 := by omega
  have g6 : ¬ b < 240 := by omega
  rw [utf8Run_cons, if_pos rfl, if_neg g1]
  rw [if_neg g2, if_neg g3, if_neg g4, if_neg g5, if_neg g6, if_neg h3, if_neg h4,
    if_pos h2]

/-- Step lemma: the last continuation byte completes a character. -/
theorem utf8Run_cont1 {b pend lo hi : Nat} (hge : lo ≤ b) (hle : b ≤ hi)
    (rest : List Nat) (acc : List Char) :
    utf8Run (b :: rest) acc pend 1 lo hi
      = utf8Run rest (acc ++ [Char.ofNat (pend * 64 + (b - 128))]) 0 0 0 0 := by
  have g1 : ¬ (1 : Nat) = 0 := by decide
  rw [utf8Run_cons, if_neg g1, if_pos ⟨hge, hle⟩, if_pos rfl]

/-- Step lemma: a continuation byte with two still expected. -/
theorem utf8Run_cont2 {b pend lo hi : Nat} (hge : lo ≤ b) (hle : b ≤ hi)
    (rest : List Nat) (acc : List Char) :
    utf8Run (b :: rest) acc pend 2 lo hi
      = utf8Run rest acc (pend * 64 + (b - 128)) 1 128 191 := by
  have g1 : ¬ (2 : Nat) = 0 := by decide
  have g2 : ¬ (2 : Nat) = 1 := by decide
  rw [utf8Run_cons, if_neg g1, if_pos ⟨hge, hle⟩, if_neg g2]

/-- Step lemma: a continuation byte with three still expected. -/
theorem utf8Run_cont3 {b pend lo hi : Nat} (hge : lo ≤ b) (hle : b ≤ hi)
    (rest : List Nat) (acc : List Char) :
    utf8Run (b :: rest) acc pend 3 lo hi
      = utf8Run rest acc (pend * 64 + (b - 128)) 2 128 191 := by
  have g1 : ¬ (3 : Nat) = 0 := by decide
  have g2 : ¬ (3 : Nat) = 1 := by decide
  rw [utf8Run_cons, if_neg g1, if_pos ⟨hge, hle⟩, if_neg g2]

/-- Running the decoder over the encoding of one character from the ready
state consumes exactly that character. -/
theorem utf8Run_encodeChar (c : Char) (rest : List Nat) (acc : List Char) :
    utf8Run (utf8EncodeChar c ++ rest) acc 0 0 0 0
      = utf8Run rest (acc ++ [c]) 0 0 0 0 := by
  have hv : c.toNat < 55296 ∨ (57343 < c.toNat ∧ c.toNat < 1114112) := c.valid
  have hco : Char.ofNat c.toNat = c := Char.ofNat_toNat c
  by_cases h1 : c.toNat < 128
  · have he : utf8EncodeChar c = [c.toNat] := by simp [utf8EncodeChar, h1]
    rw [he, List.cons_append, List.nil_append, utf8Run_lead1 h1, hco]
  · by_cases h2 : c.toNat < 2048
    · have he : utf8EncodeChar c = [192 + c.toNat / 64, 128 + c.toNat % 64] := by
        simp [utf8EncodeChar, h1, h2]
      have k1 : 194 ≤ 192 + c.toNat / 64 := by omega
      have k2 : 192 + c.toNat / 64 < 224 := by omega
      have k3 : 128 ≤ 128 + c.toNat % 64 := by omega
      have k4 : 128 + c.toNat % 64 ≤ 191 := by omega
      have ha : (192 + c.toNat / 64 - 192) * 64 + (128 + c.toNat % 64 - 128)
          = c.toNat := by omega
      rw [he, List.cons_append, List.cons_append, List.nil_append,
        utf8Run_lead2 k1 k2, utf8Run_cont1 k3 k4, ha, hco]
    · by_cases h3 : c.toNat < 65536
      · have he : utf8EncodeChar c
            = [224 + c.toNat / 4096, 128 + c.toNat / 64 % 64, 128 + c.toNat % 64] := by
          simp [utf8EncodeChar, h1, h2, h3]
        rw [he]
        simp only [List.cons_append, List.nil_append]
        have k5 : 128 ≤ 128 + c.toNat % 64 := by omega
        have k6 : 128 + c.toNat % 64 ≤ 191 := by omega
        by_cases hb0 : c.toNat / 4096 = 0
        · have e0 : 224 + c.toNat / 4096 = 224 := by omega
          have k3 : 160 ≤ 128 + c.toNat / 64 % 64 := by omega
          have k4 : 128 + c.toNat / 64 % 64 ≤ 191 := by omega
          have ha : (0 * 64 + (128 + c.toNat / 64 % 64 - 128)) * 64
              + (128 + c.toNat % 64 - 128) = c.toNat := by omega
          rw [e0, utf8Run_lead3a, utf8Run_cont2 k3 k4, utf8Run_cont1 k5 k6, ha, hco]
        · by_cases hb13 : c.toNat / 4096 = 13
          · have e13 : 224 + c.toNat / 4096 = 237 := by omega
            have k3 : 128 ≤ 128 + c.toNat / 64 % 64 := by omega
            have k4 : 128 + c.toNat / 64 % 64 ≤ 159 := by omega
            have ha : (13 * 64 + (128 + c.toNat / 64 % 64 - 128)) * 64
                + (128 + c.toNat % 64 - 128) = c.toNat := by omega
            rw [e13, utf8Run_lead3b, utf8Run_cont2 k3 k4, utf8Run_cont1 k5 k6, ha, hco]
          · have k1a : 224 ≤ 224 + c.toNat / 4096 := by omega
            have k1b : 224 + c.toNat / 4096 < 240 := by omega
            have k1c : ¬ 224 + c.toNat / 4096 = 224 := by omega
            have k1d : ¬ 224 + c.toNat / 4096 = 237 := by omega
            have k3 : 128 ≤ 128 + c.toNat / 64 % 64 := by omega
            have k4 : 128 + c.toNat / 64 % 64 ≤ 191 := by omega
            have ha : ((224 + c.toNat / 4096 - 224) * 64
                  + (128 + c.toNat / 64 % 64 - 128)) * 64
                + (128 + c.toNat % 64 - 128) = c.toNat := by omega
            rw [utf8Run_lead3 k1a k1b k1c k1d, utf8Run_cont2 k3 k4,
              utf8Run_cont1 k5 k6, ha, hco]
      · have he : utf8EncodeChar c
            = [240 + c.toNat / 262144, 128 + c.toNat / 4096 % 64,
               128 + c.toNat / 64 % 64, 128 + c.toNat % 64] := by
          simp [utf8EncodeChar, h1, h2, h3]
        rw [he]
        simp only [List.cons_append, List.nil_append]
        have k5 : 128 ≤ 128 + c.toNat / 64 % 64 := by omega
        have k6 : 128 + c.toNat / 64 % 64 ≤ 191 := by omega
        have k7 : 128 ≤ 128 + c.toNat % 64 := by omega
        have k8 : 128 + c.toNat % 64 ≤ 191 := by omega
        by_cases hb0 : c.toNat / 262144 = 0
        · have e0 : 240 + c.toNat / 262144 = 240 := by omega
          have k3 : 144 ≤ 128 + c.toNat / 4096 % 64 := by omega
          have k4 : 128 + c.toNat / 4096 % 64 ≤ 191 := by omega
          have ha : ((0 * 64 + (128 + c.toNat / 4096 % 64 - 128)) * 64
                + (128 + c.toNat / 64 % 64 - 128)) * 64
              + (128 + c.toNat % 64 - 128) = c.toNat := by omega
          rw [e0, utf8Run_lead4a, utf8Run_cont3 k3 k4, utf8Run_cont2 k5 k6,
            utf8Run_cont1 k7 k8, ha, hco]
        · by_cases hb4 : c.toNat / 262144 = 4
          · have e4 : 240 + c.toNat / 262144 = 244 := by omega
            have k3 : 128 ≤ 128 + c.toNat / 4096 % 64 := by omega
            have k4 : 128 + c.toNat / 4096 % 64 ≤ 143 := by omega
            have ha : ((4 * 64 + (128 + c.toNat / 4096 % 64 - 128)) * 64
                  + (128 + c.toNat / 64 % 64 - 128)) * 64
                + (128 + c.toNat % 64 - 128) = c.toNat := by omega
            rw [e4, utf8Run_lead4b, utf8Run_cont3 k3 k4, utf8Run_cont2 k5 k6,
              utf8Run_cont1 k7 k8, ha, hco]
          · have k1a : 240 ≤ 240 + c.toNat / 262144 := by omega
            have k1b : 240 + c.toNat / 262144 < 245 := by omega
            have k1c : ¬ 240 + c.toNat / 262144 = 240 := by omega
            have k1d : ¬ 240 + c.toNat / 262144 = 244 := by omega
            have k3 : 128 ≤ 128 + c.toNat / 4096 % 64 := by omega
            have k4 : 128 + c.toNat / 4096 % 64 ≤ 191 := by omega
            have ha : (((240 + c.toNat / 262144 - 240) * 64
                    + (128 + c.toNat / 4096 % 64 - 128)) * 64
                  + (128 + c.toNat / 64 % 64 - 128)) * 64
                + (128 + c.toNat % 64 - 128) = c.toNat := by omega
            rw [utf8Run_lead4 k1a k1b k1c k1d, utf8Run_cont3 k3 k4,
              utf8Run_cont2 k5 k6, utf8Run_cont1 k7 k8, ha, hco]

theorem utf8Run_encodeList (l : List Char) :
    ∀ acc, utf8Run (utf8EncodeList l) acc 0 0 0 0 = some (acc ++ l) := by
  induction l with
  | nil => intro acc; simp [utf8EncodeList, utf8Run]
  | cons c cs ih =>
    intro acc
    simp only [utf8EncodeList]
    rw [utf8Run_encodeChar, ih]
    simp

/-- UTF-8 round trip on character lists. -/
theorem utf8Decode_encodeList (l : List Char) :
    utf8Decode (utf8EncodeList l) = some l := by
  simpa using utf8Run_encodeList l []

/-- UTF-8 round trip on strings. -/
theorem utf8DecodeStr_encode (s : String) :
    utf8DecodeStr (utf8Encode s) = some s := by
  simp [utf8DecodeStr, utf8Encode, utf8Decode_encodeList]

/-! ## The body decoder (`_decode_body`) -/

/-- Embedding of `GmailClient._decode_body` of `gmail_impl/src/gmail_impl/gmail_client.py`
(and `_decode_body_data` of `gmail_impl/src/gmail_impl/client.py`): empty
data is returned as the empty string without decoding; otherwise two `=`
characters are appended, the result is base64url-decoded and the bytes
UTF-8-decoded; `none` models the caught `ValueError` or
`UnicodeDecodeError`. -/
def decodeBody (data : String) : Option String :=
  if data = "" then some ""
  else (b64decode ⟨data.data ++ ['=', '=']⟩).bind utf8DecodeStr

/-- Embedding of `GmailClient._decode_body` of the flat `gmail_impl/gmail_client.py`
variant: identical decoding with no special case for empty input, but a
caught failure is reported as the empty string. -/
def decodeBodyFlat (data : String) : String :=
  match (b64decode ⟨data.data ++ ['=', '=']⟩).bind utf8DecodeStr with
  | some t => t
  | none => ""

theorem utf8EncodeChar_ne_nil (c : Char) : utf8EncodeChar c ≠ [] := by
  unfold utf8EncodeChar
  split <;> simp_all <;> split <;> simp_all <;> split <;> simp_all

theorem utf8Encode_ne_nil (s : String) (h : s ≠ "") : utf8Encode s ≠ [] := by
  have hsd : s.data ≠ [] := by
    intro hb
    apply h
    cases s
    simp_all
  rw [utf8Encode]
  cases hl : s.data with
  | nil => exact absurd hl hsd
  | cons c cs =>
    simp only [utf8EncodeList, ne_eq, List.append_eq_nil]
    intro hcontra
    exact utf8EncodeChar_ne_nil c hcontra.1

theorem b64DataChars_ne_nil (bs : List Nat) (h : bs ≠ []) : b64DataChars bs ≠ [] := by
  match bs with
  | [] => exact absurd rfl h
  | [b1] => simp [b64DataChars]
  | [b1, b2] => simp [b64DataChars]
  | b1 :: b2 :: b3 :: rest => simp [b64DataChars]

theorem b64PadChars_all_pad (bs : List Nat) : ∀ c ∈ b64PadChars bs, c = '=' := by
  unfold b64PadChars
  split <;> simp_all

/-- Decoding the (bare or padded) encoding of a byte list after the
source's unconditional `+ "=="` recovers the bytes. -/
theorem b64decode_encode (bs : List Nat) (hb : ∀ b ∈ bs, b < 256) (tail : List Char)
    (ht : ∀ c ∈ tail, c = '=') :
    b64decode ⟨(b64DataChars bs ++ tail) ++ ['=', '=']⟩ = some bs := by
  have h2 : (2 : Nat) ≤ (tail ++ ['=', '=']).length := by
    simp
  have hall : ∀ c ∈ tail ++ ['=', '='], c = '=' := by
    intro c hc
    rcases List.mem_append.1 hc with hc | hc
    · exact ht c hc
    · simpa using hc
  have := b64Loop_data bs hb (tail ++ ['=', '=']) hall h2 []
  simpa [b64decode, List.append_assoc] using this

/-- C2: the body decoder inverts base64url over UTF-8: decoding the
encoding of any text — padded or unpadded — returns that text; decoding
the empty string returns the empty string; and the two source variants
agree on every input, the flat variant collapsing the `None` failure
sentinel to the empty string (in the embedding both are total functions:
the caught exceptions are values, never raised). -/
theorem C2_decoder_roundtrip_and_sentinel :
    (∀ s : String, decodeBody (b64urlEncodeBare (utf8Encode s)) = some s
       ∧ decodeBody (b64urlEncode (utf8Encode s)) = some s)
    ∧ decodeBody "" = some ""
    ∧ (∀ data : String, decodeBodyFlat data = (decodeBody data).getD "") := by
  refine ⟨fun s => ?_, by simp [decodeBody], fun data => ?_⟩
  · have hb : ∀ b ∈ utf8Encode s, b < 256 := utf8EncodeList_lt s.data
    have hrt : utf8DecodeStr (utf8Encode s) = some s := utf8DecodeStr_encode s
    by_cases hs : s = ""
    · subst hs
      constructor <;> decide
    · have hdne : b64DataChars (utf8Encode s) ≠ [] :=
        b64DataChars_ne_nil _ (utf8Encode_ne_nil s hs)
      constructor
      · have hne : b64urlEncodeBare (utf8Encode s) ≠ "" := by
          simp only [b64urlEncodeBare, ne_eq]
          intro hcontra
          apply hdne
          simpa using congrArg String.data hcontra
        rw [decodeBody, if_neg hne]
        have hd : (b64urlEncodeBare (utf8Encode s)).data ++ ['=', '=']
            = (b64DataChars (utf8Encode s) ++ []) ++ ['=', '='] := by
          simp [b64urlEncodeBare]
        rw [show (⟨(b64urlEncodeBare (utf8Encode s)).data ++ ['=', '=']⟩ : String)
            = ⟨(b64DataChars (utf8Encode s) ++ []) ++ ['=', '=']⟩ from congrArg String.mk hd,
          b64decode_encode _ hb [] (by simp), Option.some_bind, hrt]
      · have hne : b64urlEncode (utf8Encode s) ≠ "" := by
          simp only [b64urlEncode, ne_eq]
          intro hcontra
          apply hdne
          have := congrArg String.data hcontra
          simp only [List.append_eq_nil] at this
          · exact this.1
        rw [decodeBody, if_neg hne]
        have hd : (b64urlEncode (utf8Encode s)).data ++ ['=', '=']
            = (b64DataChars (utf8Encode s) ++ b64PadChars (utf8Encode s)) ++ ['=', '='] := by
          simp [b64urlEncode]
        rw [show (⟨(b64urlEncode (utf8Encode s)).data ++ ['=', '=']⟩ : String)
            = ⟨(b64DataChars (utf8Encode s) ++ b64PadChars (utf8Encode s)) ++ ['=', '=']⟩
            from congrArg String.mk hd,
          b64decode_encode _ hb _ (b64PadChars_all_pad _), Option.some_bind, hrt]
  · by_cases hd : data = ""
    · subst hd
      decide
    · rw [decodeBody, if_neg hd, decodeBodyFlat]
      cases (b64decode ⟨data.data ++ ['=', '=']⟩).bind utf8DecodeStr <;> simp

/-! ## Date parsing (`_parse_date`) -/

/-- A parsed timestamp: calendar fields plus the UTC offset in minutes
(model of an aware Python `datetime`; a naive result is represented with
offset 0). -/
structure PyDateTime where
  year : Nat
  month : Nat
  day : Nat
  hour : Nat
  minute : Nat
  second : Nat
  tzOffsetMinutes : Int
deriving Repr, DecidableEq

/-- The Unix epoch tagged UTC: `datetime.fromtimestamp(0, tz=UTC)`. -/
def epochUTC : PyDateTime :=
  ⟨1970, 1, 1, 0, 0, 0, 0⟩

/-- Python `str.endswith(suf)`. -/
def pyEnds (s suf : String) : Bool :=
  listBegins suf.data.reverse s.data.reverse

/-- Split on runs of whitespace, dropping empty fields (Python
`str.split()` with no argument). -/
def splitWsGo : List Char → List Char → List (List Char)
  | [], cur => if cur.isEmpty then [] else [cur.reverse]
  | c :: rest, cur =>
    if pyIsSpace c then
      if cur.isEmpty then splitWsGo rest [] else cur.reverse :: splitWsGo rest []
    else splitWsGo rest (c :: cur)

/-- Python `s.split()` on strings. -/
def pySplitWs (s : String) : List String :=
  (splitWsGo s.data []).map String.mk

/-- Model of `int(s)` for an unsigned all-digit token; `none` models `ValueError`. -/
def parseAllDigits (s : String) : Option Nat :=
  if s.data ≠ [] ∧ s.data.all Char.isDigit then
    some (s.data.foldl (fun acc c => acc * 10 + (c.toNat - 48)) 0)
  else none

/-- The day names recognised by `email.utils.parsedate_tz`. -/
def isDayName (t : String) : Bool :=
  let l := pyLower t
  l = "mon" || l = "tue" || l = "wed" || l = "thu" || l = "fri" || l = "sat" || l = "sun"

/-- Month number from the month-name token of `parsedate_tz`
(case-insensitive, abbreviated or full English names). -/
def monthNum (t : String) : Option Nat :=
  let l := pyLower t
  if l = "jan" ∨ l = "january" then some 1
  else if l = "feb" ∨ l = "february" then some 2
  else if l = "mar" ∨ l = "march" then some 3
  else if l = "apr" ∨ l = "april" then some 4
  else if l = "may" then some 5
  else if l = "jun" ∨ l = "june" then some 6
  else if l = "jul" ∨ l = "july" then some 7
  else if l = "aug" ∨ l = "august" then some 8
  else if l = "sep" ∨ l = "september" then some 9
  else if l = "oct" ∨ l = "october" then some 10
  else if l = "nov" ∨ l = "november" then some 11
  else if l = "dec" ∨ l = "december" then some 12
  else none

/-- Parse the `hh:mm[:ss]` time-of-day token of `parsedate_tz`. -/
def parseTimeTok (t : String) : Option (Nat × Nat × Nat) :=
  match pySplit t ':' with
  | [hh, mm] =>
    (parseAllDigits hh).bind fun h =>
      (parseAllDigits mm).map fun m => (h, m, 0)
  | [hh, mm, ss] =>
    (parseAllDigits hh).bind fun h =>
      (parseAllDigits mm).bind fun m =>
        (parseAllDigits ss).map fun sec => (h, m, sec)
  | _ => none

/-- UTC offset in minutes from the zone token of `parsedate_tz`:
`±HHMM` numeric offsets and the named North-American zones; any other
token leaves the result naive (modelled as offset 0, like `-0000`). -/
def parseZone (t : String) : Int :=
  match t.data with
  | '+' :: ds =>
    match parseAllDigits ⟨ds⟩ with
    | some v => (v / 100 * 60 + v % 100 : Nat)
    | none => 0
  | '-' :: ds =>
    match parseAllDigits ⟨ds⟩ with
    | some v => -((v / 100 * 60 + v % 100 : Nat) : Int)
    | none => 0
  | _ =>
    let l := pyLower t
    if l = "ut" ∨ l = "gmt" ∨ l = "utc" then 0
    else if l = "est" then -300
    else if l = "edt" then -240
    else if l = "cst" then -360
    else if l = "cdt" then -300
    else if l = "mst" then -420
    else if l = "mdt" then -360
    else if l = "pst" then -480
    else if l = "pdt" then -420
    else match parseAllDigits t with
      | some v => (v / 100 * 60 + v % 100 : Nat)
      | none => 0

/-- Model of the external collaborator `email.utils.parsedate_to_datetime`
(CPython standard library), restricted to the
`[weekday,] day month year hh:mm[:ss] zone` shape of RFC 2822 dates; any
other shape, any non-numeric field, an unknown month name, or a
calendar-invalid field value is a parse failure (`ValueError` in CPython,
`none` here). -/
def parsedate (s : String) : Option PyDateTime :=
  match pySplitWs s with
  | [] => none
  | t0 :: rest =>
    let toks := if pyEnds t0 "," || isDayName t0 then rest else t0 :: rest
    match toks with
    | [dd, mon, yyyy, time, zone] =>
      (parseAllDigits dd).bind fun day =>
        (monthNum mon).bind fun m =>
          (parseAllDigits yyyy).bind fun y0 =>
            (parseTimeTok time).bind fun hms =>
              let y := if y0 < 100 then (if y0 > 68 then y0 + 1900 else y0 + 2000) else y0
              if 1 ≤ day ∧ day ≤ 31 ∧ hms.1 < 24 ∧ hms.2.1 < 60 ∧ hms.2.2 < 60 then
                some ⟨y, m, day, hms.1, hms.2.1, hms.2.2, parseZone zone⟩
              else none
    | _ => none

/-- Embedding of `GmailClient._parse_date` of `gmail_impl/src/gmail_impl/gmail_client.py`
(and of `client.py`): the empty string short-circuits to the epoch; a
caught parse failure also yields the epoch. -/
def parseDate (dateStr : String) : PyDateTime :=
  if dateStr = "" then epochUTC
  else
    match parsedate dateStr with
    | some dt => dt
    | none => epochUTC

/-- Embedding of `GmailClient._parse_date` of the flat `gmail_impl/gmail_client.py`
variant: no empty-string special case; any caught failure (including the
`ValueError` raised on `""`) yields the epoch. -/
def parseDateFlat (dateStr : String) : PyDateTime :=
  match parsedate dateStr with
  | some dt => dt
  | none => epochUTC

/-- C3: the date parser never fails: the empty string gives the epoch
tagged UTC (in both variants), any non-empty string the model cannot
parse as an RFC 2822 date gives the same epoch sentinel, any string the
model parses yields the parsed timestamp, and the valid example string
parses to 2023-03-15 10:30:00 +0000. -/
theorem C3_parse_date_sentinel :
    parseDate "" = epochUTC ∧ parseDateFlat "" = epochUTC
    ∧ (∀ s : String, s ≠ "" → parsedate s = none →
        parseDate s = epochUTC ∧ parseDateFlat s = epochUTC)
    ∧ (∀ (s : String) (dt : PyDateTime), parsedate s = some dt →
        parseDate s = dt ∧ parseDateFlat s = dt)
    ∧ parseDate "Wed, 15 Mar 2023 10:30:00 +0000" = ⟨2023, 3, 15, 10, 30, 0, 0⟩ := by
  refine ⟨by decide, by decide, fun s hs hp => ?_, fun s dt hp => ?_, by decide⟩
  · rw [parseDate, if_neg hs, hp, parseDateFlat, hp]
    exact ⟨rfl, rfl⟩
  · have hs : s ≠ "" := by
      intro hcontra
      subst hcontra
      rw [show parsedate "" = none by decide] at hp
      cases hp
    rw [parseDate, if_neg hs, hp, parseDateFlat, hp]
    exact ⟨rfl, rfl⟩

/-- Witness for `C3_parse_date_sentinel` at the concrete unparseable
input `"not a date"`. -/
theorem C3_parse_date_sentinel_witness :
    ("not a date" : String) ≠ "" ∧ parsedate "not a date" = none
    ∧ parseDate "not a date" = epochUTC ∧ parseDateFlat "not a date" = epochUTC := by
  refine ⟨by decide, by decide, C3_parse_date_sentinel.2.2.1 "not a date" (by decide) (by decide)⟩

/-! ## Data model and address-list parsing (`_parse_email_addresses`) -/

/-- Embedding of `email_api.EmailAddress`: an address with optional display name
(`none` models Python `None`; an explicit empty string is the distinct
value `some ""`). -/
structure EmailAddress where
  address : String
  name : Option String
deriving Repr, DecidableEq

/-- Python `part.rsplit(sep, 1)` on a character list known to contain
`sep`: the pair (before the last `sep`, after the last `sep`). -/
def rsplitLast (sep : Char) (l : List Char) : List Char × List Char :=
  let revAfter := l.reverse.takeWhile (fun c => c ≠ sep)
  let rest := l.reverse.dropWhile (fun c => c ≠ sep)
  ((rest.drop 1).reverse, revAfter.reverse)

/-- Python `name or None`: an empty display name collapses to `None`. -/
def pyNameOrNone (name : String) : Option String :=
  if name = "" then none else some name

/-- The body of the per-segment loop of `_parse_email_addresses`
(`gmail_impl/src/gmail_impl/gmail_client.py`): strip the segment, skip it
when empty; with both `<` and `>` present split at the last `<`, the name
is the left part trimmed then stripped of all surrounding `"` and then
all surrounding `'` characters (collapsed to `None` when empty), the
email the right part with trailing `>` removed and trimmed; otherwise the
whole segment is the email with no name; a segment whose email is empty
is discarded (`none`). -/
def segAddr (part : String) : Option EmailAddress :=
  let addr := pyStrip part
  if addr = "" then none
  else if addr.data.contains '<' && addr.data.contains '>' then
    let np := rsplitLast '<' addr.data
    let name := pyStripChar (Char.ofNat 39) (pyStripChar '"' (pyStrip ⟨np.1⟩))
    let email := pyStrip (pyRStripChar '>' ⟨np.2⟩)
    if email = "" then none else some ⟨email, pyNameOrNone name⟩
  else some ⟨addr, none⟩

/-- Per-segment loop body of the flat `gmail_impl/gmail_client.py` and of
`gmail_impl/src/gmail_impl/client.py` variants: identical except that an
empty stripped name is kept as the empty string rather than collapsed to
`None`. -/
def segAddrKeepEmpty (part : String) : Option EmailAddress :=
  let addr := pyStrip part
  if addr = "" then none
  else if addr.data.contains '<' && addr.data.contains '>' then
    let np := rsplitLast '<' addr.data
    let name := pyStripChar (Char.ofNat 39) (pyStripChar '"' (pyStrip ⟨np.1⟩))
    let email := pyStrip (pyRStripChar '>' ⟨np.2⟩)
    if email = "" then none else some ⟨email, some name⟩
  else some ⟨addr, none⟩

/-- The `addresses.append(...)`-or-skip step of the segment loop. -/
def addrFoldStep (f : String → Option EmailAddress)
    (result : List EmailAddress) (part : String) : List EmailAddress :=
  match f part with
  | some a => result ++ [a]
  | none => result

/-- Embedding of `_parse_email_addresses` (src variant): empty or all-whitespace input
yields `[]`; otherwise the comma-separated segments are processed in
order, appending each parsed address. -/
def parseEmailAddresses (raw : String) : List EmailAddress :=
  if pyStrip raw = "" then []
  else (pySplit raw ',').foldl (addrFoldStep segAddr) []

/-- Embedding of `_parse_email_addresses` of the flat variant (and
`client.py`): same loop over `segAddrKeepEmpty`. -/
def parseEmailAddressesFlat (raw : String) : List EmailAddress :=
  if pyStrip raw = "" then []
  else (pySplit raw ',').foldl (addrFoldStep segAddrKeepEmpty) []

/-- An append-accumulating fold is a `filterMap`. -/
theorem foldlAppend_eq_filterMap (f : String → Option EmailAddress) (l : List String) :
    ∀ acc, l.foldl (addrFoldStep f) acc = acc ++ l.filterMap f := by
  induction l with
  | nil => intro acc; simp
  | cons x xs ih =>
    intro acc
    simp only [List.foldl_cons, List.filterMap_cons]
    cases hfx : f x with
    | none => rw [addrFoldStep, hfx, ih acc]
    | some b => rw [addrFoldStep, hfx, ih (acc ++ [b])]; simp

/-- C4: the address-list parser is order-preserving and performs no
deduplication or sorting: on every input it returns exactly the parsed
segments of the comma-split input in input order, with segments whose
extracted email is empty discarded; empty and all-whitespace inputs give
the empty list; and the three-entry example parses to the three addresses
in order with names `Alice`, absent, `Charlie`. -/
theorem C4_address_list_order :
    (∀ raw : String, parseEmailAddresses raw
        = if pyStrip raw = "" then [] else (pySplit raw ',').filterMap segAddr)
    ∧ parseEmailAddresses "" = []
    ∧ parseEmailAddresses "   " = []
    ∧ parseEmailAddresses "Alice <a@x.com>, b@x.com, Charlie <c@x.com>"
        = [⟨"a@x.com", some "Alice"⟩, ⟨"b@x.com", none⟩, ⟨"c@x.com", some "Charlie"⟩]
    ∧ parseEmailAddressesFlat "Alice <a@x.com>, b@x.com, Charlie <c@x.com>"
        = [⟨"a@x.com", some "Alice"⟩, ⟨"b@x.com", none⟩, ⟨"c@x.com", some "Charlie"⟩] := by
  refine ⟨fun raw => ?_, by decide, by decide, by decide, by decide⟩
  rw [parseEmailAddresses]
  by_cases h : pyStrip raw = ""
  · rw [if_pos h, if_pos h]
  · rw [if_neg h, if_neg h, foldlAppend_eq_filterMap, List.nil_append]

/-- C6, counterexample: a display name written with doubled quotes,
`""Bob""`, is stripped of *all* quote layers by `str.strip('"')`, not of
exactly one: the parsed name is `Bob`, not `"Bob"`. -/
theorem C6_counterexample :
    parseEmailAddresses "\"\"Bob\"\" <b@x.com>" = [⟨"b@x.com", some "Bob"⟩]
    ∧ ¬ parseEmailAddresses "\"\"Bob\"\" <b@x.com>"
        = [⟨"b@x.com", some "\"Bob\""⟩] := by
  decide

/-- C6, amended: the display name is the part before the last `<`,
trimmed, then stripped of all leading and trailing `"` characters, and
then of all leading and trailing `'` characters, each side independently
and in that order: doubled quotes lose every layer, a mixed `"Bob'` loses
both marks, and single quotes around a double-quoted name leave the inner
double quotes in place. -/
theorem C6_amended_quote_stripping :
    parseEmailAddresses "\"\"Bob\"\" <b@x.com>" = [⟨"b@x.com", some "Bob"⟩]
    ∧ parseEmailAddresses "\"Bob\" <b@x.com>" = [⟨"b@x.com", some "Bob"⟩]
    ∧ parseEmailAddresses "'Bob' <b@x.com>" = [⟨"b@x.com", some "Bob"⟩]
    ∧ parseEmailAddresses "\"Bob' <b@x.com>" = [⟨"b@x.com", some "Bob"⟩]
    ∧ parseEmailAddresses "'\"Bob\"' <b@x.com>" = [⟨"b@x.com", some "\"Bob\""⟩] := by
  decide

/-! ## HTML-to-text conversion (`_html_to_text`) -/

/-- One global `str.replace(pat, repl)` pass, left to right and
non-overlapping; `fuel` bounds the recursion and every call site passes
the text length. -/
def replaceGo (pat repl : List Char) : Nat → List Char → List Char
  | _, [] => []
  | 0, s => s
  | fuel + 1, c :: rest =>
    if listBegins pat (c :: rest) ∧ pat ≠ [] then
      repl ++ replaceGo pat repl fuel (List.drop (pat.length - 1) rest)
    else c :: replaceGo pat repl fuel rest

/-- Python `s.replace(pat, repl)`. -/
def pyReplace (s pat repl : String) : String :=
  ⟨replaceGo pat.data repl.data s.data.length s.data⟩

/-- The scan underlying `re.sub(r"<[^>]+>", "", html)`: outside a tag,
characters pass through and `<` opens a candidate tag; inside one,
meeting `>` discards the buffered `<…>` when at least one character was
buffered, while an immediate `>` (the non-match `<>`) is emitted; an
unclosed `<…` at the end of input is emitted verbatim (the regex finds
no match there). -/
def stripTagsGo : List Char → Option (List Char) → List Char
  | [], none => []
  | [], some buf => '<' :: buf.reverse
  | c :: rest, none =>
    if c = '<' then stripTagsGo rest (some [])
    else c :: stripTagsGo rest none
  | c :: rest, some buf =>
    if c = '>' then
      if buf.isEmpty then '<' :: '>' :: stripTagsGo rest none
      else stripTagsGo rest none
    else stripTagsGo rest (some (c :: buf))

/-- Model of `re.sub(r"\s+", " ", text)`: every maximal whitespace run becomes a
single space (`prevWs` records whether the previous character was
whitespace). -/
def collapseWsGo : List Char → Bool → List Char
  | [], _ => []
  | c :: rest, prevWs =>
    if pyIsSpace c then
      if prevWs then collapseWsGo rest true
      else ' ' :: collapseWsGo rest true
    else c :: collapseWsGo rest false

/-- Embedding of `_html_to_text`: strip `<[^>]+>` tags, decode the six fixed entities
in source order (`&nbsp;`, `&lt;`, `&gt;`, `&amp;`, `&quot;`, `&#39;`),
collapse whitespace runs to single spaces, and trim. -/
def htmlToText (html : String) : String :=
  if html = "" then ""
  else
    let t0 : String := ⟨stripTagsGo html.data none⟩
    let t1 := pyReplace t0 "&nbsp;" " "
    let t2 := pyReplace t1 "&lt;" "<"
    let t3 := pyReplace t2 "&gt;" ">"
    let t4 := pyReplace t3 "&amp;" "&"
    let t5 := pyReplace t4 "&quot;" "\""
    let t6 := pyReplace t5 "&#39;" "'"
    pyStrip ⟨collapseWsGo t6.data false⟩

/-- C8: the converter strips every `<[^>]+>` tag occurrence, decodes
exactly the six listed entities (numeric entities outside the list are
left untouched), collapses whitespace runs to single spaces and trims:
the claim's example keeps `Title` and `Body` and no angle brackets, each
of the six entities is decoded, `&#60;` is not, interior whitespace runs
collapse, and surrounding whitespace is removed. -/
theorem C8_html_to_text :
    htmlToText "<h1>Title</h1><p>Body</p>" = "TitleBody"
    ∧ ('<' ∈ (htmlToText "<h1>Title</h1><p>Body</p>").data → False)
    ∧ ('>' ∈ (htmlToText "<h1>Title</h1><p>Body</p>").data → False)
    ∧ htmlToText "a&nbsp;b &lt; &gt; &amp; &quot; &#39;" = "a b < > & \" '"
    ∧ htmlToText "a&#60;b" = "a&#60;b"
    ∧ htmlToText "a  \n\t b" = "a b"
    ∧ htmlToText "  x  " = "x"
    ∧ htmlToText "<b>x</b> <>y<!" = "x <>y<!"
    := by
  decide

/-! ## MIME payload tree and the body walker (`_extract_body`) -/

/-- A node of the Gmail payload tree: its `mimeType` (`""` when the key
is absent), the base64url body data (`""` when `body`/`data` is absent)
and its child parts (`[]` when `parts` is absent). -/
inductive MimePart where
  | node (mimeType : String) (bodyData : String) (parts : List MimePart)
deriving Repr

def MimePart.mimeType : MimePart → String
  | node m _ _ => m

def MimePart.bodyData : MimePart → String
  | node _ d _ => d

def MimePart.parts : MimePart → List MimePart
  | node _ _ ps => ps

/-- Structural induction for the payload tree through its child list. -/
theorem MimePart.strongInduction {P : MimePart → Prop}
    (h : ∀ m d ps, (∀ q ∈ ps, P q) → P (MimePart.node m d ps)) : ∀ p, P p := by
  have aux : ∀ n (p : MimePart), sizeOf p ≤ n → P p := by
    intro n
    induction n with
    | zero =>
      intro p hp
      cases p with
      | node m d ps =>
        simp only [MimePart.node.sizeOf_spec] at hp
        omega
    | succ n ih =>
      intro p hp
      cases p with
      | node m d ps =>
        refine h m d ps (fun q hq => ih q ?_)
        have hlt := List.sizeOf_lt_of_mem hq
        simp only [MimePart.node.sizeOf_spec] at hp
        omega
  exact fun p => aux (sizeOf p) p le_rfl

mutual
/-- Embedding of `extract_parts`, the inner walker of `_extract_body`
(`gmail_impl/src/gmail_impl/gmail_client.py`): the state is the pair of
`text_content` and `html_content`, each a Python `str | None` variable;
a `text/plain` node with non-empty data overwrites the text candidate
with the decode result (possibly the `None` failure sentinel), a
`text/html` node likewise for the html candidate, a `multipart/*` node
recurses into its children in order, and every other node is ignored. -/
def extractParts (st : Option String × Option String) :
    MimePart → Option String × Option String
  | .node m d ps =>
    if m = "text/plain" then
      if d ≠ "" then (decodeBody d, st.2) else st
    else if m = "text/html" then
      if d ≠ "" then (st.1, decodeBody d) else st
    else if pyStarts m "multipart/" then extractPartsList st ps
    else st
termination_by p => sizeOf p

/-- The `for subpart in part.get("parts", [])` loop of `extract_parts`. -/
def extractPartsList (st : Option String × Option String) :
    List MimePart → Option String × Option String
  | [] => st
  | q :: qs => extractPartsList (extractParts st q) qs
termination_by ps => sizeOf ps
end

/-- Embedding of `_extract_body`: walk the payload, then return a truthy text
candidate, else a truthy html candidate converted to text, else `""`
(the flat variant differs only in storing `""` instead of `None` for a
failed decode — both are falsy, so the selection is identical). -/
def extractBody (payload : MimePart) : String :=
  let st := extractParts (none, none) payload
  if pyTruthy st.1 then st.1.getD ""
  else if pyTruthy st.2 then htmlToText (st.2.getD "")
  else ""

mutual
/-- Claim-side description: the nodes visited by the walker, in
depth-first pre-order, recursing (only) into `multipart/*` nodes. -/
def visitedNodes : MimePart → List MimePart
  | .node m d ps =>
    .node m d ps :: (if pyStarts m "multipart/" then visitedNodesList ps else [])
termination_by p => sizeOf p

/-- Pre-order visit of a child list. -/
def visitedNodesList : List MimePart → List MimePart
  | [] => []
  | q :: qs => visitedNodes q ++ visitedNodesList qs
termination_by ps => sizeOf ps
end

/-- Claim-side description of the assignment made at one visited node:
`text/plain` with non-empty data overwrites the text candidate,
`text/html` with non-empty data the html candidate, anything else leaves
the state unchanged. -/
def assignNode (st : Option String × Option String) (p : MimePart) :
    Option String × Option String :=
  if p.mimeType = "text/plain" ∧ p.bodyData ≠ "" then (decodeBody p.bodyData, st.2)
  else if p.mimeType = "text/html" ∧ p.bodyData ≠ "" then (st.1, decodeBody p.bodyData)
  else st

/-- The child loop equals the fold over the concatenated visit lists,
assuming the per-child equation. -/
theorem extractPartsList_eq : ∀ ps : List MimePart,
    (∀ q ∈ ps, ∀ st, extractParts st q = (visitedNodes q).foldl assignNode st) →
    ∀ st, extractPartsList st ps = (visitedNodesList ps).foldl assignNode st := by
  intro ps
  induction ps with
  | nil =>
    intro _ st
    simp only [extractPartsList, visitedNodesList, List.foldl_nil]
  | cons q qs ihq =>
    intro h st
    simp only [extractPartsList, visitedNodesList]
    rw [List.foldl_append, ← h q (by simp), ihq (fun r hr => h r (by simp [hr])) _]

/-- The source walker equals the claim-side fold of per-node assignments
over the pre-order visit list. -/
theorem extractParts_eq_fold (p : MimePart) :
    ∀ st, extractParts st p = (visitedNodes p).foldl assignNode st := by
  induction p using MimePart.strongInduction with
  | _ m d ps ih =>
    intro st
    simp only [extractParts, visitedNodes]
    by_cases hp : m = "text/plain"
    · subst hp
      simp [assignNode, MimePart.mimeType, MimePart.bodyData,
        (show pyStarts "text/plain" "multipart/" = false by decide),
        (show ¬ ("text/plain" : String) = "text/html" by decide)]
    · by_cases hh : m = "text/html"
      · subst hh
        simp [assignNode, MimePart.mimeType, MimePart.bodyData, hp,
          (show pyStarts "text/html" "multipart/" = false by decide)]
      · by_cases hm : pyStarts m "multipart/" = true
        · simp only [hp, hh, hm, if_false, if_true, List.foldl_cons]
          have hst : assignNode st (MimePart.node m d ps) = st := by
            simp [assignNode, MimePart.mimeType, MimePart.bodyData, hp, hh]
          rw [hst]
          exact extractPartsList_eq ps ih st
        · simp [assignNode, MimePart.mimeType, MimePart.bodyData, hp, hh, hm]

/-- A `multipart/alternative` payload carrying base64url("Hello") as
`text/plain` and base64url("&lt;b&gt;Hi&lt;/b&gt;") as `text/html`. -/
def altPayload : MimePart :=
  .node "multipart/alternative" ""
    [.node "text/plain" "SGVsbG8" [], .node "text/html" "PGI-SGk8L2I-" []]

/-- C1: the body walker visits the payload tree depth-first in
order, recursing only into `multipart/*` nodes, reassigning the text
candidate at every `text/plain` node with non-empty body data (and the
html candidate at every `text/html` node likewise, so the last such part
in traversal order wins), and then returns the text candidate if truthy,
else the html candidate converted to text, else the empty string; in
particular the `multipart/alternative` example with both children yields
the decoded plain-text branch `"Hello"`, not the HTML branch (which
decodes to `"<b>Hi</b>"`). -/
theorem C1_extract_body_walk :
    (∀ p : MimePart, extractBody p =
      (let st := (visitedNodes p).foldl assignNode (none, none)
       if pyTruthy st.1 then st.1.getD ""
       else if pyTruthy st.2 then htmlToText (st.2.getD "")
       else ""))
    ∧ extractBody altPayload = "Hello"
    ∧ decodeBody "PGI-SGk8L2I-" = some "<b>Hi</b>" := by
  have hfold : ∀ p : MimePart, extractBody p =
      (let st := (visitedNodes p).foldl assignNode (none, none)
       if pyTruthy st.1 then st.1.getD ""
       else if pyTruthy st.2 then htmlToText (st.2.getD "")
       else "") := by
    intro p
    simp only [extractBody, extractParts_eq_fold]
  refine ⟨hfold, ?_, by decide⟩
  rw [hfold altPayload]
  have hv : visitedNodes altPayload
      = [altPayload, .node "text/plain" "SGVsbG8" [],
         .node "text/html" "PGI-SGk8L2I-" []] := by
    rw [show visitedNodes altPayload
        = altPayload :: (if pyStarts "multipart/alternative" "multipart/" then
            visitedNodesList [MimePart.node "text/plain" "SGVsbG8" [],
              MimePart.node "text/html" "PGI-SGk8L2I-" []] else [])
      from by rw [altPayload, visitedNodes]]
    rw [if_pos (by decide), visitedNodesList, visitedNodesList, visitedNodesList,
      visitedNodes, visitedNodes, if_neg (by decide), if_neg (by decide)]
    rfl
  rw [hv]
  decide

/-! ## Message parsing (`_parse_message`) -/

/-- One `{name, value}` element of the payload's header list (absent keys
default to `""` via `h.get(...)`). -/
structure Header where
  name : String
  value : String
deriving Repr, DecidableEq

/-- Embedding of `email_api.client.Email` (simple variant): a single composite `body`
string. -/
structure Email where
  id : String
  subject : String
  sender : EmailAddress
  recipients : List EmailAddress
  dateSent : PyDateTime
  dateReceived : PyDateTime
  body : String
deriving Repr

/-- A raw Gmail API message as consumed by `_parse_message`: the `id`
(`""` when the key is absent, as `message.get("id", "")` yields), the
payload's header list, and the payload's MIME view. -/
structure RawMessage where
  id : String
  headers : List Header
  payload : MimePart

/-- The state threaded through the header-dispatch loop of
`_parse_message`. -/
structure HeaderState where
  subject : String
  senderEmail : String
  senderName : Option String
  recipients : List EmailAddress
  dateStr : String
deriving Repr

/-- The initial header state: empty subject, default sender, no
recipients, empty date string. -/
def initialHeaderState : HeaderState :=
  ⟨"", "unknown@unknown.com", none, [], ""⟩

/-- One iteration of the header loop, parametrised by the address parser
of the enclosing variant: `Subject` overwrites the subject, a `From`
whose parse is non-empty overwrites the sender fields (so a later `From`
header wins), a `To` extends the recipients with all parsed addresses,
`Date` overwrites the date string, anything else is ignored
(case-insensitive names). -/
def headerStep (parse : String → List EmailAddress)
    (st : HeaderState) (h : Header) : HeaderState :=
  let n := pyLower h.name
  if n = "subject" then { st with subject := h.value }
  else if n = "from" then
    match parse h.value with
    | [] => st
    | a :: _ => { st with senderEmail := a.address, senderName := a.name }
  else if n = "to" then { st with recipients := st.recipients ++ parse h.value }
  else if n = "date" then { st with dateStr := h.value }
  else st

/-- The default sender `EmailAddress("unknown@unknown.com", None)`. -/
def defaultSender : EmailAddress :=
  ⟨"unknown@unknown.com", none⟩

/-- The sentinel empty record the flat `_parse_message` returns when the
message has no usable `id` (the raised `KeyError` is caught). -/
def sentinelEmail : Email :=
  ⟨"", "", defaultSender, [], epochUTC, epochUTC, ""⟩

/-- Embedding of `GmailClient._parse_message` of the flat `gmail_impl/gmail_client.py`:
an empty (or absent) `id` raises and is caught, yielding the sentinel
empty record; otherwise the headers are dispatched in order, the date
string parsed (epoch on failure) and used for both `date_sent` and
`date_received`, and the body extracted from the payload tree. -/
def parseMessage (msg : RawMessage) : Email :=
  if msg.id = "" then sentinelEmail
  else
    let st := msg.headers.foldl (headerStep parseEmailAddressesFlat) initialHeaderState
    let ts := parseDateFlat st.dateStr
    ⟨msg.id, st.subject, ⟨st.senderEmail, st.senderName⟩, st.recipients, ts, ts,
      extractBody msg.payload⟩

/-- C9: both timestamps of the produced record are the single parsed
`Date` value: `date_sent = date_received` on every input, the sentinel
empty record included. -/
theorem C9_date_sent_eq_received (msg : RawMessage) :
    (parseMessage msg).dateSent = (parseMessage msg).dateReceived := by
  rw [parseMessage]
  by_cases h : msg.id = ""
  · simp [h, sentinelEmail]
  · simp [h]

/-- Folding the header loop never shrinks the recipient list: it appends
exactly the parses of the `to`-named headers, in header order. -/
theorem headerStep_foldl_recipients (parse : String → List EmailAddress)
    (hs : List Header) :
    ∀ st : HeaderState,
      (hs.foldl (headerStep parse) st).recipients
        = st.recipients
          ++ (hs.filter (fun h => pyLower h.name = "to")).bind
              (fun h => parse h.value) := by
  induction hs with
  | nil => intro st; simp
  | cons h hs ih =>
    intro st
    rw [List.foldl_cons, ih]
    by_cases hto : pyLower h.name = "to"
    · have hsub : ¬ pyLower h.name = "subject" := by rw [hto]; decide
      have hfrom : ¬ pyLower h.name = "from" := by rw [hto]; decide
      have hstep : (headerStep parse st h).recipients
          = st.recipients ++ parse h.value := by
        simp only [headerStep]
        rw [if_neg hsub, if_neg hfrom, if_pos hto]
      rw [hstep, List.filter_cons_of_pos (by simp [hto])]
      simp [List.append_assoc]
    · have hstep : (headerStep parse st h).recipients = st.recipients := by
        simp only [headerStep]
        by_cases hsub : pyLower h.name = "subject"
        · rw [if_pos hsub]
        · rw [if_neg hsub]
          by_cases hfrom : pyLower h.name = "from"
          · rw [if_pos hfrom]
            cases parse h.value with
            | nil => rfl
            | cons a as => rfl
          · rw [if_neg hfrom, if_neg hto]
            by_cases hdate : pyLower h.name = "date"
            · rw [if_pos hdate]
            · rw [if_neg hdate]
      rw [hstep, List.filter_cons_of_neg (by simp [hto])]

/-- A message whose payload carries two distinct `To` headers. -/
def msgTwoTo : RawMessage :=
  ⟨"m1", [⟨"To", "a@x.com"⟩, ⟨"To", "b@x.com"⟩], .node "" "" []⟩

/-- C5, counterexample: on a payload with two `To` headers the
normalizer produces both recipients — the loop `extend`s for every `To`
header, so the second header's address `b@x.com` does contribute,
refuting "only the first 'To' header encountered is used". -/
theorem C5_counterexample :
    (parseMessage msgTwoTo).recipients
      = [⟨"a@x.com", none⟩, ⟨"b@x.com", none⟩]
    ∧ ¬ (parseMessage msgTwoTo).recipients = [⟨"a@x.com", none⟩] := by
  constructor
  · rw [parseMessage, if_neg (by decide)]
    show (List.foldl (headerStep parseEmailAddressesFlat) initialHeaderState
        msgTwoTo.headers).recipients = _
    rw [headerStep_foldl_recipients]
    decide
  · rw [parseMessage, if_neg (by decide)]
    show ¬ (List.foldl (headerStep parseEmailAddressesFlat) initialHeaderState
        msgTwoTo.headers).recipients = _
    rw [headerStep_foldl_recipients]
    decide

/-- C5, amended: every `To` header (case-insensitive) contributes:
for every message with a usable id, the recipients are the concatenation,
in header order, of the parsed address lists of *all* `To` headers. -/
theorem C5_amended_all_to_headers (msg : RawMessage) (hid : msg.id ≠ "") :
    (parseMessage msg).recipients
      = (msg.headers.filter (fun h => pyLower h.name = "to")).bind
          (fun h => parseEmailAddressesFlat h.value) := by
  rw [parseMessage, if_neg hid]
  show (msg.headers.foldl (headerStep parseEmailAddressesFlat)
      initialHeaderState).recipients = _
  rw [headerStep_foldl_recipients]
  simp [initialHeaderState]

/-- Witness for `C5_amended_all_to_headers` at the two-`To` message. -/
theorem C5_amended_all_to_headers_witness :
    msgTwoTo.id ≠ ""
    ∧ (parseMessage msgTwoTo).recipients
      = (msgTwoTo.headers.filter (fun h => pyLower h.name = "to")).bind
          (fun h => parseEmailAddressesFlat h.value) :=
  ⟨by decide, C5_amended_all_to_headers msgTwoTo (by decide)⟩

/-- When every `from`-named header parses to no addresses, the header
loop leaves the sender fields of the state untouched. -/
theorem headerStep_foldl_sender (parse : String → List EmailAddress)
    (hs : List Header) :
    ∀ st : HeaderState,
      (∀ h ∈ hs, pyLower h.name = "from" → parse h.value = []) →
      (hs.foldl (headerStep parse) st).senderEmail = st.senderEmail
        ∧ (hs.foldl (headerStep parse) st).senderName = st.senderName := by
  induction hs with
  | nil => intro st _; exact ⟨rfl, rfl⟩
  | cons h hs ih =>
    intro st hfrom
    rw [List.foldl_cons]
    have hstep : (headerStep parse st h).senderEmail = st.senderEmail
        ∧ (headerStep parse st h).senderName = st.senderName := by
      rw [headerStep]
      by_cases hsub : pyLower h.name = "subject"
      · rw [if_pos hsub]
        exact ⟨rfl, rfl⟩
      · by_cases hf : pyLower h.name = "from"
        · rw [if_neg hsub, if_pos hf, hfrom h (by simp) hf]
          exact ⟨rfl, rfl⟩
        · by_cases hto : pyLower h.name = "to"
          · rw [if_neg hsub, if_neg hf, if_pos hto]
            exact ⟨rfl, rfl⟩
          · by_cases hdate : pyLower h.name = "date"
            · rw [if_neg hsub, if_neg hf, if_neg hto, if_pos hdate]
              exact ⟨rfl, rfl⟩
            · rw [if_neg hsub, if_neg hf, if_neg hto, if_neg hdate]
              exact ⟨rfl, rfl⟩
    obtain ⟨ih1, ih2⟩ := ih (headerStep parse st h) (fun g hg => hfrom g (by simp [hg]))
    exact ⟨ih1.trans hstep.1, ih2.trans hstep.2⟩

/-! ## The split-field variant (`email_api/models.py`, `gmail_impl/src/gmail_impl/client.py`) -/

/-- Embedding of `email_api.models.Email`: separate optional `body_text` and
`body_html` fields. -/
structure EmailS where
  id : String
  subject : String
  sender : EmailAddress
  recipients : List EmailAddress
  dateSent : PyDateTime
  dateReceived : PyDateTime
  bodyText : Option String
  bodyHtml : Option String
deriving Repr

/-- Embedding of `Email.has_text_content`: `body_text is not None and
len(body_text.strip()) > 0`. -/
def hasTextContent (e : EmailS) : Bool :=
  match e.bodyText with
  | none => false
  | some t => decide (0 < (pyStrip t).data.length)

/-- Embedding of `Email.has_html_content`. -/
def hasHtmlContent (e : EmailS) : Bool :=
  match e.bodyHtml with
  | none => false
  | some t => decide (0 < (pyStrip t).data.length)

/-- Embedding of `Email.has_content`. -/
def hasContent (e : EmailS) : Bool :=
  hasTextContent e || hasHtmlContent e

/-- Embedding of `Email.get_content`: text when it has non-whitespace content, else
html likewise, else `""` (`body_text or ""` equals `getD ""` under the
guard). -/
def getContent (e : EmailS) : String :=
  if hasTextContent e then e.bodyText.getD ""
  else if hasHtmlContent e then e.bodyHtml.getD ""
  else ""

/-- The header-loop state of `client.py`, whose default sender name is
the empty string rather than `None`. -/
structure HeaderStateS where
  subject : String
  senderEmail : String
  senderName : String
  recipients : List EmailAddress
  dateStr : String
deriving Repr

/-- One iteration of the `client.py` header loop: as `headerStep`, but
`sender_name = sender.name or ""` keeps a string. -/
def headerStepS (st : HeaderStateS) (h : Header) : HeaderStateS :=
  let n := pyLower h.name
  if n = "subject" then { st with subject := h.value }
  else if n = "from" then
    match parseEmailAddressesFlat h.value with
    | [] => st
    | a :: _ => { st with senderEmail := a.address, senderName := (a.name).getD "" }
  else if n = "to" then { st with recipients := st.recipients ++ parseEmailAddressesFlat h.value }
  else if n = "date" then { st with dateStr := h.value }
  else st

/-- Embedding of `GmailClientImpl._parse_gmail_message` of
`gmail_impl/src/gmail_impl/client.py` with `include_body=True`: same
header dispatch with a string sender name, and the walker's two
candidates stored directly as `body_text` / `body_html`. -/
def parseGmailMessage (msg : RawMessage) : EmailS :=
  let st := msg.headers.foldl headerStepS ⟨"", "unknown@unknown.com", "", [], ""⟩
  let ts := parseDate st.dateStr
  let cand := extractParts (none, none) msg.payload
  ⟨msg.id, st.subject, ⟨st.senderEmail, some st.senderName⟩, st.recipients, ts, ts,
    cand.1, cand.2⟩

/-- When every `from`-named header parses to no addresses, the
`client.py` header loop leaves the sender fields untouched. -/
theorem headerStepS_foldl_sender (hs : List Header) :
    ∀ st : HeaderStateS,
      (∀ h ∈ hs, pyLower h.name = "from" → parseEmailAddressesFlat h.value = []) →
      (hs.foldl headerStepS st).senderEmail = st.senderEmail
        ∧ (hs.foldl headerStepS st).senderName = st.senderName := by
  induction hs with
  | nil => intro st _; exact ⟨rfl, rfl⟩
  | cons h hs ih =>
    intro st hfrom
    rw [List.foldl_cons]
    have hstep : (headerStepS st h).senderEmail = st.senderEmail
        ∧ (headerStepS st h).senderName = st.senderName := by
      rw [headerStepS]
      by_cases hsub : pyLower h.name = "subject"
      · rw [if_pos hsub]
        exact ⟨rfl, rfl⟩
      · by_cases hf : pyLower h.name = "from"
        · rw [if_neg hsub, if_pos hf, hfrom h (by simp) hf]
          exact ⟨rfl, rfl⟩
        · by_cases hto : pyLower h.name = "to"
          · rw [if_neg hsub, if_neg hf, if_pos hto]
            exact ⟨rfl, rfl⟩
          · by_cases hdate : pyLower h.name = "date"
            · rw [if_neg hsub, if_neg hf, if_neg hto, if_pos hdate]
              exact ⟨rfl, rfl⟩
            · rw [if_neg hsub, if_neg hf, if_neg hto, if_neg hdate]
              exact ⟨rfl, rfl⟩
    obtain ⟨ih1, ih2⟩ := ih (headerStepS st h) (fun g hg => hfrom g (by simp [hg]))
    exact ⟨ih1.trans hstep.1, ih2.trans hstep.2⟩

/-- C10: a payload with no `From` header, or whose `From` headers all
parse to zero addresses, still yields an `Email`: the sender is the fixed
default `unknown@unknown.com` with absent name in the simple variant and
with empty-string name in the split-field variant — the normalizer
neither fails nor omits the sender. -/
theorem C10_missing_from_default_sender (msg : RawMessage)
    (hfrom : ∀ h ∈ msg.headers, pyLower h.name = "from" →
      parseEmailAddressesFlat h.value = []) :
    (parseMessage msg).sender = defaultSender
    ∧ (parseGmailMessage msg).sender = ⟨"unknown@unknown.com", some ""⟩ := by
  constructor
  · rw [parseMessage]
    by_cases hid : msg.id = ""
    · rw [if_pos hid]
      rfl
    · rw [if_neg hid]
      show (⟨(msg.headers.foldl (headerStep parseEmailAddressesFlat)
          initialHeaderState).senderEmail,
        (msg.headers.foldl (headerStep parseEmailAddressesFlat)
          initialHeaderState).senderName⟩ : EmailAddress) = defaultSender
      obtain ⟨h1, h2⟩ :=
        headerStep_foldl_sender parseEmailAddressesFlat msg.headers initialHeaderState hfrom
      rw [h1, h2]
      rfl
  · rw [parseGmailMessage]
    show (⟨(msg.headers.foldl headerStepS ⟨"", "unknown@unknown.com", "", [], ""⟩).senderEmail,
      some (msg.headers.foldl headerStepS
        ⟨"", "unknown@unknown.com", "", [], ""⟩).senderName⟩ : EmailAddress) = _
    obtain ⟨h1, h2⟩ :=
      headerStepS_foldl_sender msg.headers ⟨"", "unknown@unknown.com", "", [], ""⟩ hfrom
    rw [h1, h2]

/-- Witness for `C10_missing_from_default_sender`: a message with a
subject and a recipient but no `From` header at all. -/
theorem C10_missing_from_default_sender_witness :
    (∀ h ∈ (RawMessage.mk "m2" [⟨"Subject", "hi"⟩, ⟨"To", "a@x.com"⟩]
        (.node "" "" [])).headers,
      pyLower h.name = "from" → parseEmailAddressesFlat h.value = [])
    ∧ (parseMessage (RawMessage.mk "m2" [⟨"Subject", "hi"⟩, ⟨"To", "a@x.com"⟩]
        (.node "" "" []))).sender = defaultSender := by
  refine ⟨by decide, (C10_missing_from_default_sender _ (by decide)).1⟩

theorem stripEnds_eq_nil_iff (p : Char → Bool) (l : List Char) :
    stripEnds p l = [] ↔ ∀ c ∈ l, p c := by
  rw [stripEnds, List.reverse_eq_nil_iff, List.dropWhile_eq_nil_iff]
  constructor
  · intro h c hc
    have hsplit : c ∈ l.takeWhile p ++ l.dropWhile p := by
      rw [List.takeWhile_append_dropWhile]
      exact hc
    rcases List.mem_append.1 hsplit with hc1 | hc2
    · exact List.mem_takeWhile_imp hc1
    · exact h c (List.mem_reverse.2 hc2)
  · intro h c hc
    exact h c ((List.dropWhile_sublist p).subset (List.mem_reverse.1 hc))

/-- A Python-stripped string is non-empty exactly when the original has a
non-whitespace character. -/
theorem pyStrip_len_pos_iff (t : String) :
    0 < (pyStrip t).length ↔ ∃ c ∈ t.data, ¬ pyIsSpace c := by
  show 0 < (stripEnds pyIsSpace t.data).length ↔ _
  rw [List.length_pos, ne_eq, stripEnds_eq_nil_iff]
  push_neg
  rfl

/-- Claim-side: the html fallback of `get_content`. -/
def specHtmlChoice (e : EmailS) : String :=
  match e.bodyHtml with
  | some t => if ∃ c ∈ t.data, ¬ pyIsSpace c then t else ""
  | none => ""

/-- Claim-side description of `get_content`: `body_text` when non-`None`
with at least one non-whitespace character, else `body_html` under the
same test, else the empty string. -/
def specGetContent (e : EmailS) : String :=
  match e.bodyText with
  | some t => if ∃ c ∈ t.data, ¬ pyIsSpace c then t else specHtmlChoice e
  | none => specHtmlChoice e

theorem hasTextContent_iff (e : EmailS) :
    hasTextContent e = true
      ↔ ∃ t, e.bodyText = some t ∧ ∃ c ∈ t.data, ¬ pyIsSpace c := by
  cases ht : e.bodyText with
  | none => simp [hasTextContent, ht]
  | some t => simp [hasTextContent, ht, pyStrip_len_pos_iff]

theorem hasHtmlContent_iff (e : EmailS) :
    hasHtmlContent e = true
      ↔ ∃ t, e.bodyHtml = some t ∧ ∃ c ∈ t.data, ¬ pyIsSpace c := by
  cases ht : e.bodyHtml with
  | none => simp [hasHtmlContent, ht]
  | some t => simp [hasHtmlContent, ht, pyStrip_len_pos_iff]

theorem getContent_html_case (e : EmailS) :
    (if hasHtmlContent e then e.bodyHtml.getD "" else "") = specHtmlChoice e := by
  cases hh : e.bodyHtml with
  | none =>
    have h1 : hasHtmlContent e = false := by simp [hasHtmlContent, hh]
    simp only [specHtmlChoice, hh]
    rw [if_neg (by simp [h1])]
  | some t =>
    by_cases hx : ∃ c ∈ t.data, ¬ pyIsSpace c
    · have h1 : hasHtmlContent e = true := (hasHtmlContent_iff e).2 ⟨t, hh, hx⟩
      simp only [specHtmlChoice, hh]
      rw [if_pos h1, if_pos hx]
      rfl
    · have h1 : hasHtmlContent e = false := by
        rw [← Bool.not_eq_true]
        intro hcontra
        obtain ⟨u, hu, hcu⟩ := (hasHtmlContent_iff e).1 hcontra
        rw [hh] at hu
        cases hu
        exact hx hcu
      simp only [specHtmlChoice, hh]
      rw [if_neg (by simp [h1]), if_neg hx]

/-- C7: `get_content` returns `body_text` when it is non-`None` and
has at least one non-whitespace character, else `body_html` under the
same test, else the empty string; and `has_content` is true exactly when
`has_text_content` or `has_html_content` is. -/
theorem C7_get_content_selection :
    (∀ e : EmailS, getContent e = specGetContent e)
    ∧ (∀ e : EmailS, hasContent e = (hasTextContent e || hasHtmlContent e))
    ∧ (∀ e : EmailS, hasTextContent e = true
        ↔ ∃ t, e.bodyText = some t ∧ ∃ c ∈ t.data, ¬ pyIsSpace c) := by
  refine ⟨fun e => ?_, fun e => rfl, fun e => hasTextContent_iff e⟩
  cases ht : e.bodyText with
  | none =>
    have h1 : hasTextContent e = false := by simp [hasTextContent, ht]
    rw [getContent, if_neg (by simp [h1])]
    simp only [specGetContent, ht]
    exact getContent_html_case e
  | some t =>
    by_cases hx : ∃ c ∈ t.data, ¬ pyIsSpace c
    · have h1 : hasTextContent e = true := (hasTextContent_iff e).2 ⟨t, ht, hx⟩
      rw [getContent, if_pos h1]
      simp only [specGetContent, ht]
      rw [if_pos hx]
      rfl
    · have h1 : hasTextContent e = false := by
        rw [← Bool.not_eq_true]
        intro hcontra
        obtain ⟨u, hu, hcu⟩ := (hasTextContent_iff e).1 hcontra
        rw [ht] at hu
        cases hu
        exact hx hcu
      rw [getContent, if_neg (by simp [h1])]
      simp only [specGetContent, ht]
      rw [if_neg hx]
      exact getContent_html_case e

end GmailSpec
